import Mathlib

/-!
Verification of the row-classification core of the FAQ ETL script
(`sheet-to-sheet-to-doc.js`).  Cell values are modelled as `String`
(the script calls `.toString()` on every cell before use), rows as
`List String`, and the JavaScript string primitives used by the script
(`trim`, `toLowerCase`, `toUpperCase`, `split`, `includes`) are given
character-list implementations.  The JS object `colIndices` is modelled
as a function `String → Option Nat` built by successive assignment
(later assignments shadow earlier ones), and the `processData` loop as a
fold over the data rows carrying the `outputData` / per-sheet seen-set
state, exactly as in the source.
-/

/-- Model of the JavaScript whitespace trim used by `String.prototype.trim`:
drop whitespace characters from both ends of the character list. -/
def trimChars (l : List Char) : List Char :=
  ((l.dropWhile Char.isWhitespace).reverse.dropWhile Char.isWhitespace).reverse

/-- JS `s.trim()`. -/
def jsTrim (s : String) : String := String.mk (trimChars s.data)

/-- JS `s.toLowerCase()` (ASCII case mapping; all configured keywords are
ASCII-cased on the letters affected). -/
def jsToLower (s : String) : String := String.mk (s.data.map Char.toLower)

/-- JS `s.toUpperCase()` (ASCII case mapping). -/
def jsToUpper (s : String) : String := String.mk (s.data.map Char.toUpper)

/-- JS `s.split(sep)` for a single-character separator, on character lists:
`split` of the empty list is `[[]]`, and every separator occurrence starts a
new piece. -/
def splitChars (sep : Char) : List Char → List (List Char)
  | [] => [[]]
  | c :: rest =>
    if c = sep then [] :: splitChars sep rest
    else
      match splitChars sep rest with
      | [] => [[c]]
      | piece :: pieces => (c :: piece) :: pieces

/-- JS `s.split(sep)` for a single-character separator. -/
def jsSplit (s : String) (sep : Char) : List String :=
  (splitChars sep s.data).map String.mk

/-- Does `needle` occur at the very start of `hay`? -/
def matchHere : List Char → List Char → Bool
  | [], _ => true
  | _ :: _, [] => false
  | a :: ns, b :: hs => a == b && matchHere ns hs

/-- Does `needle` occur as a contiguous sublist of `hay`? -/
def occursIn (needle : List Char) : List Char → Bool
  | [] => needle.isEmpty
  | c :: rest => matchHere needle (c :: rest) || occursIn needle rest

/-- JS `s.includes(target)`: `target` occurs as a substring of `s`. -/
def jsIncludes (s target : String) : Bool := occursIn target.data s.data

/-! ## Configuration constants (lines 8–24 of the script) -/

def PUBLICABLE_COL_NAME : String := "Publicable"
def RESPUESTA_COL_NAME : String := "Respuesta"
def RESPUESTA_ACT_COL_NAME : String := "Respuesta Actualizada"
def ETIQUETA_ORIG_COL_NAME : String := "Etiqueta Original"
def ETIQUETA_PROP_COL_NAME : String := "Etiqueta Propuesta"

/-- `TAG_SEPARATOR = ';'` (a one-character string in the script, used only as
the `split` separator). -/
def TAG_SEPARATOR : Char := ';'

def EXCLUDED_TAG : String := "Sedes"

def GROUPING_RULES : List (String × List String) :=
  [("FAQ_Ingresantes", ["Ingreso", "Ingresantes", "Art. 7", "Inscripción", "Beca", "CIVU"]),
   ("FAQ_Alumnos_Examen", ["Alumno", "Examen"]),
   ("FAQ_Tramites_Equivalencias_SAG", ["Tramites", "Aranceles", "equivalencias", "SAG"]),
   ("FAQ_Preguntas_frecuentes_generales",
      ["Oferta Académica", "Postgrados", "Cursos", "FAQ", "Varios"])]

/-! ## Header index (`findColumnHeaders`, lines 80–86) -/

/-- The `headers.forEach((header, index) => indices[header.trim()] = index)`
loop, starting at position `n` with the object built so far; a later
assignment to the same key shadows the earlier one, as in JS. -/
def findColumnHeadersFrom : Nat → List String → (String → Option Nat) → (String → Option Nat)
  | _, [], acc => acc
  | n, h :: rest, acc =>
      findColumnHeadersFrom (n + 1) rest (fun k => if k = jsTrim h then some n else acc k)

/-- `findColumnHeaders(headers)`: map each trimmed header name to its
(0-based) column index. -/
def findColumnHeaders (headers : List String) : String → Option Nat :=
  findColumnHeadersFrom 0 headers (fun _ => none)

/-! ## Row classification (`processData`, lines 94–168)

`processData` is only ever called after the orchestrator has validated that
all five required column names are present in the header index, so inside
the classifier the column-index map is a total function `String → Nat`.
Cell reads out of range are totalised with `""` (unreachable on the
rectangular tables the host API returns). -/

abbrev Row := List String
abbrev Table := List Row

/-- Lines 118–127: overwrite the answer column with the trimmed updated
answer when non-empty, then the original-tag column with the trimmed
proposed tag when non-empty, on the per-row copy. -/
def transformRow (colIndices : String → Nat) (row : Row) : Row :=
  let respuestaActualizada := jsTrim (row.getD (colIndices RESPUESTA_ACT_COL_NAME) "")
  let row1 :=
    if respuestaActualizada ≠ "" then
      row.set (colIndices RESPUESTA_COL_NAME) respuestaActualizada
    else row
  let etiquetaPropuesta := jsTrim (row1.getD (colIndices ETIQUETA_PROP_COL_NAME) "")
  if etiquetaPropuesta ≠ "" then
    row1.set (colIndices ETIQUETA_ORIG_COL_NAME) etiquetaPropuesta
  else row1

/-- Line 130: the final tag string read back (trimmed) from the possibly
overwritten original-tag column. -/
def finalTagOf (colIndices : String → Nat) (row : Row) : String :=
  jsTrim ((transformRow colIndices row).getD (colIndices ETIQUETA_ORIG_COL_NAME) "")

/-- Lines 137–140: split on the separator, trim and lower-case each piece,
drop empty pieces. -/
def parseTags (s : String) : List String :=
  ((jsSplit s TAG_SEPARATOR).map (fun tag => jsToLower (jsTrim tag))).filter
    (fun tag => tag ≠ "")

/-- Lines 111–145: the per-row filter/transform/parse stage.  Returns
`none` when the row is skipped (publish flag "NO", excluded tag, or zero
parsed tags), otherwise the transformed row copy together with its parsed
tags. -/
def classifyRow (colIndices : String → Nat) (row : Row) : Option (Row × List String) :=
  if jsToUpper (jsTrim (row.getD (colIndices PUBLICABLE_COL_NAME) "")) = "NO" then none
  else
    let rowData := transformRow colIndices row
    let finalEtiquetaString := jsTrim (rowData.getD (colIndices ETIQUETA_ORIG_COL_NAME) "")
    if jsToLower finalEtiquetaString = jsToLower EXCLUDED_TAG then none
    else
      let tags := parseTags finalEtiquetaString
      if tags = [] then none
      else some (rowData, tags)

/-- Lines 151–158: `matchFound` — some tag of the row contains some
(already lower-cased) keyword as a substring. -/
def ruleMatches (keywords tags : List String) : Bool :=
  tags.any (fun tag => keywords.any (fun keyword => jsIncludes tag keyword))

/-- The mutable state of the `processData` loop: the `outputData` object and
the per-sheet set of already-added source row indices (the JS `Set` is
modelled as the list of its insertions; only membership is ever queried). -/
structure PDState where
  outputData : String → Option (List Row)
  processedRows : String → Option (List Nat)

/-- Lines 99–102: initialise `outputData[sheetName] = []` and
`processedRowIndicesBySheet[sheetName] = new Set()` for every rule. -/
def initState : PDState :=
  GROUPING_RULES.foldl
    (fun st rule =>
      { outputData := fun k => if k = rule.1 then some [] else st.outputData k,
        processedRows := fun k => if k = rule.1 then some [] else st.processedRows k })
    { outputData := fun _ => none, processedRows := fun _ => none }

/-- Lines 148–165, body for one rule: if some tag contains some lower-cased
keyword and row `i` was not yet added to this sheet, push the row copy and
record `i`. -/
def applyRule (i : Nat) (rowData : Row) (tags : List String) (st : PDState)
    (rule : String × List String) : PDState :=
  if ruleMatches (rule.2.map jsToLower) tags
      && !((st.processedRows rule.1).getD []).contains i then
    { outputData := fun k =>
        if k = rule.1 then (st.outputData k).map (fun rows => rows ++ [rowData])
        else st.outputData k,
      processedRows := fun k =>
        if k = rule.1 then (st.processedRows k).map (fun l => l ++ [i])
        else st.processedRows k }
  else st

/-- Lines 148–165: iterate the rule body over every grouping rule. -/
def applyRules (i : Nat) (rowData : Row) (tags : List String) (st : PDState) : PDState :=
  GROUPING_RULES.foldl (applyRule i rowData tags) st

/-- Lines 107–166: the `for (let i = 1; i < data.length; i++)` loop, with
`i` the source row index of the head of the remaining row list. -/
def processRows (colIndices : String → Nat) : Nat → Table → PDState → PDState
  | _, [], st => st
  | i, row :: rest, st =>
      match classifyRow colIndices row with
      | none => processRows colIndices (i + 1) rest st
      | some (rowData, tags) =>
          processRows colIndices (i + 1) rest (applyRules i rowData tags st)

/-- `processData(data, colIndices)`: run the loop over the data rows
(skipping the header row) and return the `outputData` object. -/
def processData (data : Table) (colIndices : String → Nat) : String → Option (List Row) :=
  (processRows colIndices 1 (data.drop 1) initState).outputData

/-- The bucket entry a single source row contributes to the rule with raw
keyword list `keywordsRaw`: its transformed copy when it survives
filtering and matches the rule, `none` otherwise. -/
def entryFor (colIndices : String → Nat) (keywordsRaw : List String) (row : Row) :
    Option Row :=
  match classifyRow colIndices row with
  | none => none
  | some (rowData, tags) =>
      if ruleMatches (keywordsRaw.map jsToLower) tags then some rowData else none

/-! ## Orchestrator core (`processAndCreateSheetsAndDocs`, lines 39–61) -/

/-- The two fatal data-shape failures of the orchestrator that are visible
from the data alone (the missing-sheet alert is host-bound). -/
inductive RunError where
  | emptySheet : RunError
  | missingColumn : String → RunError
deriving DecidableEq

/-- Lines 49–52: the five required column names, in validation order. -/
def requiredCols : List String :=
  [PUBLICABLE_COL_NAME, RESPUESTA_COL_NAME, RESPUESTA_ACT_COL_NAME,
   ETIQUETA_ORIG_COL_NAME, ETIQUETA_PROP_COL_NAME]

/-- Lines 39–61: abort when there is no data row; build the header index
from row 0; abort naming the first required column missing from it;
otherwise run the classifier.  (Sheet creation and document export, lines
63–72, are host-bound I/O downstream of this result.) -/
def runCore (principalData : Table) : Except RunError (String → Option (List Row)) :=
  if principalData.length < 2 then Except.error RunError.emptySheet
  else
    match requiredCols.find?
        (fun colName => (findColumnHeaders (principalData.headD []) colName).isNone) with
    | some colName => Except.error (RunError.missingColumn colName)
    | none =>
        Except.ok (processData principalData
          (fun k => (findColumnHeaders (principalData.headD []) k).getD 0))

/-! ## Lemmas on the string model -/

theorem matchHere_iff (needle hay : List Char) :
    matchHere needle hay = true ↔ ∃ t, hay = needle ++ t := by
  induction needle generalizing hay with
  | nil => simp [matchHere]
  | cons a ns ih =>
    cases hay with
    | nil => simp [matchHere]
    | cons b hs =>
      simp only [matchHere, Bool.and_eq_true, beq_iff_eq, ih, List.cons_append,
        List.cons.injEq]
      constructor
      · rintro ⟨rfl, t, rfl⟩
        exact ⟨t, rfl, rfl⟩
      · rintro ⟨t, rfl, rfl⟩
        exact ⟨rfl, t, rfl⟩

theorem occursIn_iff (needle hay : List Char) :
    occursIn needle hay = true ↔ ∃ p q, hay = p ++ needle ++ q := by
  induction hay with
  | nil =>
    simp only [occursIn, List.isEmpty_iff]
    constructor
    · rintro rfl
      exact ⟨[], [], rfl⟩
    · rintro ⟨p, q, h⟩
      rcases List.append_eq_nil.mp h.symm with ⟨h1, h2⟩
      exact (List.append_eq_nil.mp h1).2
  | cons c rest ih =>
    simp only [occursIn, Bool.or_eq_true, matchHere_iff, ih]
    constructor
    · rintro (⟨t, ht⟩ | ⟨p, q, hpq⟩)
      · exact ⟨[], t, by simp [ht]⟩
      · exact ⟨c :: p, q, by simp [hpq]⟩
    · rintro ⟨p, q, hpq⟩
      cases p with
      | nil =>
        exact Or.inl ⟨q, by simpa using hpq⟩
      | cons c' p' =>
        simp only [List.cons_append, List.cons.injEq] at hpq
        exact Or.inr ⟨p', q, hpq.2⟩

theorem jsIncludes_iff (s target : String) :
    jsIncludes s target = true ↔ ∃ p q, s.data = p ++ target.data ++ q :=
  occursIn_iff target.data s.data

theorem trimChars_eq_rdrop (l : List Char) :
    trimChars l =
      List.rdropWhile Char.isWhitespace (List.dropWhile Char.isWhitespace l) := rfl

theorem dropWhile_trimChars (l : List Char) :
    List.dropWhile Char.isWhitespace (trimChars l) = trimChars l := by
  rw [List.dropWhile_eq_self_iff]
  intro hl
  have hpre : trimChars l <+: List.dropWhile Char.isWhitespace l :=
    List.rdropWhile_prefix _ _
  have h0 : 0 < (List.dropWhile Char.isWhitespace l).length :=
    Nat.lt_of_lt_of_le hl hpre.length_le
  have hw := List.dropWhile_get_zero_not Char.isWhitespace l h0
  simpa [List.get_eq_getElem, List.IsPrefix.getElem hpre hl] using hw

theorem trimChars_idem (l : List Char) : trimChars (trimChars l) = trimChars l := by
  rw [trimChars_eq_rdrop (trimChars l), dropWhile_trimChars, trimChars_eq_rdrop l,
    List.rdropWhile_idempotent]

theorem jsTrim_idem (s : String) : jsTrim (jsTrim s) = jsTrim s := by
  simp only [jsTrim, trimChars_idem]

/-! ## The bucket closed form of `processData` -/

theorem applyRule_ne (i : Nat) (rd : Row) (tags : List String) (st : PDState)
    (rule : String × List String) (name : String) (h : rule.1 ≠ name) :
    (applyRule i rd tags st rule).outputData name = st.outputData name ∧
    (applyRule i rd tags st rule).processedRows name = st.processedRows name := by
  unfold applyRule
  split
  · constructor <;> simp [Ne.symm h]
  · exact ⟨rfl, rfl⟩

theorem foldl_applyRule_ne (rs : List (String × List String)) (i : Nat) (rd : Row)
    (tags : List String) (st : PDState) (name : String)
    (h : name ∉ rs.map Prod.fst) :
    (rs.foldl (applyRule i rd tags) st).outputData name = st.outputData name ∧
    (rs.foldl (applyRule i rd tags) st).processedRows name = st.processedRows name := by
  induction rs generalizing st with
  | nil => exact ⟨rfl, rfl⟩
  | cons r rs ih =>
    simp only [List.map_cons, List.mem_cons] at h
    push_neg at h
    obtain ⟨h1, h2⟩ := h
    simp only [List.foldl_cons]
    obtain ⟨o, p⟩ := ih (applyRule i rd tags st r) h2
    obtain ⟨o', p'⟩ := applyRule_ne i rd tags st r name (fun e => h1 e.symm)
    exact ⟨o.trans o', p.trans p'⟩

theorem applyRule_eq (i : Nat) (rd : Row) (tags : List String) (st : PDState)
    (name : String) (kws : List String) (acc : List Row) (sl : List Nat)
    (hout : st.outputData name = some acc) (hseen : st.processedRows name = some sl)
    (hni : sl.contains i = false) :
    (applyRule i rd tags st (name, kws)).outputData name =
      some (if ruleMatches (kws.map jsToLower) tags then acc ++ [rd] else acc) ∧
    (applyRule i rd tags st (name, kws)).processedRows name =
      some (if ruleMatches (kws.map jsToLower) tags then sl ++ [i] else sl) := by
  have hni' : i ∉ sl := by simpa using hni
  cases hm : ruleMatches (kws.map jsToLower) tags with
  | false => constructor <;> simp [applyRule, hm, hout, hseen]
  | true => constructor <;> simp [applyRule, hm, hout, hseen, hni']

theorem foldl_applyRule_mem (rs : List (String × List String)) (name : String)
    (kws : List String) (i : Nat) (rd : Row) (tags : List String) (st : PDState)
    (acc : List Row) (sl : List Nat)
    (hmem : (name, kws) ∈ rs) (hnd : (rs.map Prod.fst).Nodup)
    (hout : st.outputData name = some acc) (hseen : st.processedRows name = some sl)
    (hni : sl.contains i = false) :
    (rs.foldl (applyRule i rd tags) st).outputData name =
      some (if ruleMatches (kws.map jsToLower) tags then acc ++ [rd] else acc) ∧
    (rs.foldl (applyRule i rd tags) st).processedRows name =
      some (if ruleMatches (kws.map jsToLower) tags then sl ++ [i] else sl) := by
  induction rs generalizing st with
  | nil => exact absurd hmem (List.not_mem_nil _)
  | cons r rs ih =>
    rcases List.mem_cons.mp hmem with heq | htail
    · subst heq
      simp only [List.map_cons, List.nodup_cons] at hnd
      simp only [List.foldl_cons]
      obtain ⟨o1, p1⟩ := applyRule_eq i rd tags st name kws acc sl hout hseen hni
      obtain ⟨o2, p2⟩ := foldl_applyRule_ne rs i rd tags
        (applyRule i rd tags st (name, kws)) name hnd.1
      exact ⟨o2.trans o1, p2.trans p1⟩
    · rw [List.map_cons] at hnd
      have hname : name ∈ rs.map Prod.fst :=
        List.mem_map_of_mem Prod.fst htail
      have hne : r.1 ≠ name := by
        intro e
        exact (List.nodup_cons.mp hnd).1 (e ▸ hname)
      simp only [List.foldl_cons]
      obtain ⟨o1, p1⟩ := applyRule_ne i rd tags st r name hne
      exact ih (applyRule i rd tags st r) htail (List.nodup_cons.mp hnd).2
        (o1.trans hout) (p1.trans hseen)

theorem processRows_at (ci : String → Nat) (rows : Table) (n : Nat) (st : PDState)
    (name : String) (kws : List String) (acc : List Row) (sl : List Nat)
    (hmem : (name, kws) ∈ GROUPING_RULES)
    (hout : st.outputData name = some acc) (hseen : st.processedRows name = some sl)
    (hbound : ∀ j ∈ sl, j < n) :
    (processRows ci n rows st).outputData name =
      some (acc ++ rows.filterMap (entryFor ci kws)) := by
  induction rows generalizing n st acc sl with
  | nil => simpa [processRows] using hout
  | cons row rest ih =>
    simp only [processRows]
    cases hc : classifyRow ci row with
    | none =>
      have he : entryFor ci kws row = none := by simp [entryFor, hc]
      rw [List.filterMap_cons, he]
      exact ih (n + 1) st acc sl hout hseen (fun j hj => Nat.lt_succ_of_lt (hbound j hj))
    | some pair =>
      obtain ⟨rd, tags⟩ := pair
      have hni : sl.contains n = false := by
        cases h : sl.contains n with
        | false => rfl
        | true => exact absurd (hbound n (by simpa using h)) (Nat.lt_irrefl n)
      obtain ⟨o, p⟩ := foldl_applyRule_mem GROUPING_RULES name kws n rd tags st acc sl
        hmem (by decide) hout hseen hni
      have he : entryFor ci kws row =
          if ruleMatches (kws.map jsToLower) tags then some rd else none := by
        simp [entryFor, hc]
      rw [List.filterMap_cons, he]
      cases hm : ruleMatches (kws.map jsToLower) tags with
      | false =>
        simp only [hm, if_false] at o p
        exact ih (n + 1) _ acc sl o p (fun j hj => Nat.lt_succ_of_lt (hbound j hj))
      | true =>
        simp only [hm, if_true] at o p
        have hb : ∀ j ∈ sl ++ [n], j < n + 1 := by
          intro j hj
          rcases List.mem_append.mp hj with hj | hj
          · exact Nat.lt_succ_of_lt (hbound j hj)
          · have : j = n := by simpa using hj
            omega
        have := ih (n + 1) _ (acc ++ [rd]) (sl ++ [n]) o p hb
        simpa [List.append_assoc] using this

theorem processData_bucket (data : Table) (ci : String → Nat) (name : String)
    (kws : List String) (hmem : (name, kws) ∈ GROUPING_RULES) :
    processData data ci name = some ((data.drop 1).filterMap (entryFor ci kws)) := by
  have hkeys : name = "FAQ_Ingresantes" ∨ name = "FAQ_Alumnos_Examen" ∨
      name = "FAQ_Tramites_Equivalencias_SAG" ∨
      name = "FAQ_Preguntas_frecuentes_generales" := by
    simp only [GROUPING_RULES, List.mem_cons, List.not_mem_nil, or_false,
      Prod.mk.injEq] at hmem
    tauto
  have hout : initState.outputData name = some [] := by
    rcases hkeys with rfl | rfl | rfl | rfl <;> rfl
  have hseen : initState.processedRows name = some [] := by
    rcases hkeys with rfl | rfl | rfl | rfl <;> rfl
  have h := processRows_at ci (data.drop 1) 1 initState name kws [] [] hmem hout hseen
    (by simp)
  simpa [processData] using h

theorem ruleMatches_iff (kws tags : List String) :
    ruleMatches (kws.map jsToLower) tags = true ↔
      ∃ kw ∈ kws, ∃ tag ∈ tags, ∃ p q, tag.data = p ++ (jsToLower kw).data ++ q := by
  simp only [ruleMatches, List.any_eq_true, List.mem_map, jsIncludes_iff]
  constructor
  · rintro ⟨tag, htag, kw', ⟨kw, hkw, rfl⟩, p, q, h⟩
    exact ⟨kw, hkw, tag, htag, p, q, h⟩
  · rintro ⟨kw, hkw, tag, htag, p, q, h⟩
    exact ⟨tag, htag, jsToLower kw, ⟨kw, hkw, rfl⟩, p, q, h⟩

theorem length_filterMap_eq_length_filter {α β : Type} (f : α → Option β) (l : List α) :
    (l.filterMap f).length = (l.filter (fun a => (f a).isSome)).length := by
  induction l with
  | nil => rfl
  | cons a l ih =>
    rw [List.filterMap_cons, List.filter_cons]
    cases h : f a <;> simp [h, ih]

/-! ## Concrete example data used by the witnesses -/

def exHeaders : Row :=
  ["Publicable", "Respuesta", "Respuesta Actualizada", "Etiqueta Original",
   "Etiqueta Propuesta"]

def exCi : String → Nat := fun k => (findColumnHeaders exHeaders k).getD 0

def kwIngresantes : List String :=
  ["Ingreso", "Ingresantes", "Art. 7", "Inscripción", "Beca", "CIVU"]

def kwGenerales : List String :=
  ["Oferta Académica", "Postgrados", "Cursos", "FAQ", "Varios"]

def exRow1 : Row := ["SI", "resp", "", "inscripción abierta;varios temas", ""]

/-! ## Row-skip lemmas -/

theorem classifyRow_eq_none_of_no (ci : String → Nat) (row : Row)
    (h : jsToUpper (jsTrim (row.getD (ci PUBLICABLE_COL_NAME) "")) = "NO") :
    classifyRow ci row = none := by
  simp only [classifyRow]
  rw [if_pos h]

theorem classifyRow_eq_none_of_excluded (ci : String → Nat) (row : Row)
    (h : jsToLower (finalTagOf ci row) = jsToLower EXCLUDED_TAG) :
    classifyRow ci row = none := by
  simp only [classifyRow]
  split
  · rfl
  · simp only [finalTagOf] at h
    rw [if_pos h]

theorem classifyRow_eq_none_of_no_tags (ci : String → Nat) (row : Row)
    (h : parseTags (finalTagOf ci row) = []) :
    classifyRow ci row = none := by
  simp only [classifyRow]
  split
  · rfl
  · split
    · rfl
    · simp only [finalTagOf] at h
      rw [if_pos h]

/-- A row on which `classifyRow` returns `none` can be removed from the table
without changing any bucket. -/
theorem processData_skip (ci : String → Nat) (hdr row : Row) (pre suf : Table)
    (name : String) (hname : name ∈ GROUPING_RULES.map Prod.fst)
    (hnone : classifyRow ci row = none) :
    processData (hdr :: (pre ++ row :: suf)) ci name =
      processData (hdr :: (pre ++ suf)) ci name := by
  obtain ⟨⟨n, kws⟩, hr, hn⟩ := List.mem_map.mp hname
  cases hn
  rw [processData_bucket _ ci n kws hr, processData_bucket _ ci n kws hr]
  simp only [List.drop_succ_cons, List.drop_zero, List.filterMap_append,
    List.filterMap_cons]
  simp [entryFor, hnone]

/-! ## Claims C1–C3 -/

/-- Claim C1: a surviving row is assigned to a category exactly when at least
one of the lower-cased keywords of the category occurs as a substring of at
least one of the parsed tags of the row, and each bucket of the output of
`processData` is exactly the in-order list of transformed copies of the rows
assigned that way (evaluated independently per category, so one row may land
in several buckets). -/
theorem bucket_assignment_iff_keyword_substring
    (data : Table) (ci : String → Nat) (name : String) (kws : List String)
    (hmem : (name, kws) ∈ GROUPING_RULES) :
    processData data ci name = some ((data.drop 1).filterMap (entryFor ci kws)) ∧
    ∀ row rd tags, classifyRow ci row = some (rd, tags) →
      (entryFor ci kws row = some rd ↔
        ∃ kw ∈ kws, ∃ tag ∈ tags, ∃ p q, tag.data = p ++ (jsToLower kw).data ++ q) := by
  refine ⟨processData_bucket data ci name kws hmem, ?_⟩
  intro row rd tags hc
  simp only [entryFor, hc]
  cases hm : ruleMatches (kws.map jsToLower) tags with
  | false =>
    rw [if_neg (by simp)]
    exact iff_of_false (by simp)
      (fun h => absurd ((ruleMatches_iff kws tags).mpr h) (by simp [hm]))
  | true =>
    rw [if_pos rfl]
    exact iff_of_true rfl ((ruleMatches_iff kws tags).mp hm)

/-- Witness for C1 at the spec example: a row with tags
`["inscripción abierta", "varios temas"]` (which lands in both the
Ingresantes and the generales bucket, once each). -/
theorem bucket_assignment_iff_keyword_substring_witness :
    (("FAQ_Ingresantes", kwIngresantes) ∈ GROUPING_RULES) ∧
    (processData [exHeaders, exRow1] exCi "FAQ_Ingresantes" =
        some (([exHeaders, exRow1].drop 1).filterMap (entryFor exCi kwIngresantes)) ∧
      ∀ row rd tags, classifyRow exCi row = some (rd, tags) →
        (entryFor exCi kwIngresantes row = some rd ↔
          ∃ kw ∈ kwIngresantes, ∃ tag ∈ tags, ∃ p q,
            tag.data = p ++ (jsToLower kw).data ++ q)) :=
  ⟨by decide, bucket_assignment_iff_keyword_substring [exHeaders, exRow1] exCi
    "FAQ_Ingresantes" kwIngresantes (by decide)⟩

def exRowIngresoSedes : Row := ["SI", "resp", "", "Ingreso;Sedes", ""]

def exRowSedes : Row := ["SI", "resp", "", " sedes ", ""]

/-- Claim C2: a row whose final tag string equals the excluded tag
case-insensitively as a whole string contributes to no bucket; the check is
on the whole string before splitting, so the row with final tag string
`"Ingreso;Sedes"` is not globally excluded (it lands in the Ingresantes
bucket). -/
theorem excluded_tag_whole_string_only :
    (∀ (ci : String → Nat) (hdr row : Row) (pre suf : Table) (name : String),
        name ∈ GROUPING_RULES.map Prod.fst →
        jsToLower (finalTagOf ci row) = jsToLower EXCLUDED_TAG →
        processData (hdr :: (pre ++ row :: suf)) ci name =
          processData (hdr :: (pre ++ suf)) ci name) ∧
    processData [exHeaders, exRowIngresoSedes] exCi "FAQ_Ingresantes" =
      some [exRowIngresoSedes] := by
  constructor
  · intro ci hdr row pre suf name hname hex
    exact processData_skip ci hdr row pre suf name hname
      (classifyRow_eq_none_of_excluded ci row hex)
  · decide

/-- Witness for C2: a row whose final tag string trims to `" sedes "` is
dropped from the table without changing the Ingresantes bucket. -/
theorem excluded_tag_whole_string_only_witness :
    jsToLower (finalTagOf exCi exRowSedes) = jsToLower EXCLUDED_TAG ∧
    processData [exHeaders, exRowSedes] exCi "FAQ_Ingresantes" =
      processData [exHeaders] exCi "FAQ_Ingresantes" :=
  ⟨by decide, excluded_tag_whole_string_only.1 exCi exHeaders exRowSedes [] []
    "FAQ_Ingresantes" (by decide) (by decide)⟩

/-- Claim C3: a row whose publishable cell trims and upper-cases to `"NO"`
is excluded before any transformation and contributes to zero buckets. -/
theorem publishable_no_row_excluded
    (ci : String → Nat) (hdr row : Row) (pre suf : Table) (name : String)
    (hname : name ∈ GROUPING_RULES.map Prod.fst)
    (hno : jsToUpper (jsTrim (row.getD (ci PUBLICABLE_COL_NAME) "")) = "NO") :
    processData (hdr :: (pre ++ row :: suf)) ci name =
      processData (hdr :: (pre ++ suf)) ci name :=
  processData_skip ci hdr row pre suf name hname
    (classifyRow_eq_none_of_no ci row hno)

def exRowNo : Row := [" no ", "resp", "", "Ingreso", ""]

/-- Witness for C3: a row whose publishable cell is `" no "` is dropped
without changing the Ingresantes bucket. -/
theorem publishable_no_row_excluded_witness :
    jsToUpper (jsTrim (exRowNo.getD (exCi PUBLICABLE_COL_NAME) "")) = "NO" ∧
    processData [exHeaders, exRowNo] exCi "FAQ_Ingresantes" =
      processData [exHeaders] exCi "FAQ_Ingresantes" :=
  ⟨by decide, publishable_no_row_excluded exCi exHeaders exRowNo [] []
    "FAQ_Ingresantes" (by decide) (by decide)⟩

/-! ## Claims C4–C5: the per-row overwrites -/

theorem classifyRow_some_parts (ci : String → Nat) (row rd : Row) (tags : List String)
    (h : classifyRow ci row = some (rd, tags)) :
    rd = transformRow ci row ∧ tags = parseTags (finalTagOf ci row) := by
  simp only [classifyRow] at h
  split at h
  · exact absurd h (by simp)
  · split at h
    · exact absurd h (by simp)
    · split at h
      · exact absurd h (by simp)
      · injection h with h'
        obtain ⟨h1, h2⟩ := Prod.mk.injEq .. |>.mp h'
        exact ⟨h1.symm, h2.symm⟩

theorem transformRow_getD_resp (ci : String → Nat) (row : Row)
    (hne : ci RESPUESTA_COL_NAME ≠ ci ETIQUETA_ORIG_COL_NAME)
    (hup : jsTrim (row.getD (ci RESPUESTA_ACT_COL_NAME) "") ≠ "")
    (hlen : ci RESPUESTA_COL_NAME < row.length) :
    (transformRow ci row).getD (ci RESPUESTA_COL_NAME) "" =
      jsTrim (row.getD (ci RESPUESTA_ACT_COL_NAME) "") := by
  simp only [transformRow]
  rw [if_pos hup]
  split
  · rw [List.getD_eq_getElem?_getD, List.getElem?_set_ne (Ne.symm hne),
      List.getElem?_set_eq_of_lt _ hlen]
    rfl
  · rw [List.getD_eq_getElem?_getD, List.getElem?_set_eq_of_lt _ hlen]
    rfl

/-- Claim C4: every copy of a row placed in any output bucket has its answer
column equal to the trimmed updated-answer value whenever that value is
non-empty (the overwrite applies to the per-row copy only). -/
theorem updated_answer_overwrites_answer
    (data : Table) (ci : String → Nat) (name : String) (kws : List String)
    (bucket : List Row) (rd : Row)
    (hmem : (name, kws) ∈ GROUPING_RULES)
    (hne : ci RESPUESTA_COL_NAME ≠ ci ETIQUETA_ORIG_COL_NAME)
    (hbucket : processData data ci name = some bucket)
    (hrd : rd ∈ bucket) :
    ∃ row ∈ data.drop 1, ∃ tags, classifyRow ci row = some (rd, tags) ∧
      (jsTrim (row.getD (ci RESPUESTA_ACT_COL_NAME) "") ≠ "" →
        ci RESPUESTA_COL_NAME < row.length →
        rd.getD (ci RESPUESTA_COL_NAME) "" =
          jsTrim (row.getD (ci RESPUESTA_ACT_COL_NAME) "")) := by
  rw [processData_bucket data ci name kws hmem] at hbucket
  injection hbucket with hb
  subst hb
  rcases List.mem_filterMap.mp hrd with ⟨row, hrow, hentry⟩
  refine ⟨row, hrow, ?_⟩
  cases hc : classifyRow ci row with
  | none => simp [entryFor, hc] at hentry
  | some pair =>
    obtain ⟨rd', tags⟩ := pair
    simp only [entryFor, hc] at hentry
    split at hentry
    · injection hentry with hrd'
      subst hrd'
      refine ⟨tags, rfl, fun hup hlen => ?_⟩
      rw [(classifyRow_some_parts ci row rd' tags hc).1]
      exact transformRow_getD_resp ci row hne hup hlen
    · exact absurd hentry (by simp)

def exRowUpd : Row := ["SI", "old", "new answer", "Beca", ""]

def exRowUpdOut : Row := ["SI", "new answer", "new answer", "Beca", ""]

/-- Witness for C4 at the spec example row
`["SI", "old", "new answer", "Beca", ""]`, whose bucketed copy is
`["SI", "new answer", "new answer", "Beca", ""]` in the Ingresantes
bucket. -/
theorem updated_answer_overwrites_answer_witness :
    (("FAQ_Ingresantes", kwIngresantes) ∈ GROUPING_RULES) ∧
    (exCi RESPUESTA_COL_NAME ≠ exCi ETIQUETA_ORIG_COL_NAME) ∧
    (processData [exHeaders, exRowUpd] exCi "FAQ_Ingresantes" = some [exRowUpdOut]) ∧
    (exRowUpdOut ∈ [exRowUpdOut]) ∧
    (∃ row ∈ ([exHeaders, exRowUpd] : Table).drop 1, ∃ tags,
      classifyRow exCi row = some (exRowUpdOut, tags) ∧
        (jsTrim (row.getD (exCi RESPUESTA_ACT_COL_NAME) "") ≠ "" →
          exCi RESPUESTA_COL_NAME < row.length →
          exRowUpdOut.getD (exCi RESPUESTA_COL_NAME) "" =
            jsTrim (row.getD (exCi RESPUESTA_ACT_COL_NAME) ""))) :=
  ⟨by decide, by decide, by decide, by decide,
    updated_answer_overwrites_answer [exHeaders, exRowUpd] exCi "FAQ_Ingresantes"
      kwIngresantes [exRowUpdOut] exRowUpdOut (by decide) (by decide) (by decide)
      (by decide)⟩

/-- Claim C5: when the proposed-tag cell is non-empty after trimming, the
original-tag column of the row copy is overwritten with it, the final tag
string used by the excluded-tag check equals it, and the tags used by the
categorization are parsed from it. -/
theorem proposed_tag_overwrites_original_tag
    (ci : String → Nat) (row : Row)
    (hprop : jsTrim (row.getD (ci ETIQUETA_PROP_COL_NAME) "") ≠ "")
    (hne : ci ETIQUETA_PROP_COL_NAME ≠ ci RESPUESTA_COL_NAME)
    (hlen : ci ETIQUETA_ORIG_COL_NAME < row.length) :
    (transformRow ci row).getD (ci ETIQUETA_ORIG_COL_NAME) "" =
      jsTrim (row.getD (ci ETIQUETA_PROP_COL_NAME) "") ∧
    finalTagOf ci row = jsTrim (row.getD (ci ETIQUETA_PROP_COL_NAME) "") ∧
    ∀ rd tags, classifyRow ci row = some (rd, tags) →
      tags = parseTags (jsTrim (row.getD (ci ETIQUETA_PROP_COL_NAME) "")) := by
  have hread : (if jsTrim (row.getD (ci RESPUESTA_ACT_COL_NAME) "") ≠ "" then
        row.set (ci RESPUESTA_COL_NAME) (jsTrim (row.getD (ci RESPUESTA_ACT_COL_NAME) ""))
      else row).getD (ci ETIQUETA_PROP_COL_NAME) "" =
      row.getD (ci ETIQUETA_PROP_COL_NAME) "" := by
    split
    · rw [List.getD_eq_getElem?_getD, List.getElem?_set_ne (Ne.symm hne),
        ← List.getD_eq_getElem?_getD]
    · rfl
  have h1 : (transformRow ci row).getD (ci ETIQUETA_ORIG_COL_NAME) "" =
      jsTrim (row.getD (ci ETIQUETA_PROP_COL_NAME) "") := by
    simp only [transformRow, hread]
    rw [if_pos hprop]
    have hlen1 : ci ETIQUETA_ORIG_COL_NAME <
        (if jsTrim (row.getD (ci RESPUESTA_ACT_COL_NAME) "") ≠ "" then
          row.set (ci RESPUESTA_COL_NAME)
            (jsTrim (row.getD (ci RESPUESTA_ACT_COL_NAME) ""))
        else row).length := by
      split
      · rw [List.length_set]
        exact hlen
      · exact hlen
    rw [List.getD_eq_getElem?_getD, List.getElem?_set_eq_of_lt _ hlen1]
    rfl
  have h2 : finalTagOf ci row = jsTrim (row.getD (ci ETIQUETA_PROP_COL_NAME) "") := by
    simp only [finalTagOf]
    rw [h1]
    exact jsTrim_idem _
  refine ⟨h1, h2, fun rd tags hc => ?_⟩
  rw [(classifyRow_some_parts ci row rd tags hc).2, h2]

def exRowProp : Row := ["SI", "resp", "", "Varios", "  Beca  "]

/-- Witness for C5: a row whose proposed-tag cell is `"  Beca  "` is
re-tagged to `"Beca"` and categorized by it. -/
theorem proposed_tag_overwrites_original_tag_witness :
    (jsTrim (exRowProp.getD (exCi ETIQUETA_PROP_COL_NAME) "") ≠ "") ∧
    (exCi ETIQUETA_PROP_COL_NAME ≠ exCi RESPUESTA_COL_NAME) ∧
    (exCi ETIQUETA_ORIG_COL_NAME < exRowProp.length) ∧
    ((transformRow exCi exRowProp).getD (exCi ETIQUETA_ORIG_COL_NAME) "" =
        jsTrim (exRowProp.getD (exCi ETIQUETA_PROP_COL_NAME) "") ∧
      finalTagOf exCi exRowProp =
        jsTrim (exRowProp.getD (exCi ETIQUETA_PROP_COL_NAME) "") ∧
      ∀ rd tags, classifyRow exCi exRowProp = some (rd, tags) →
        tags = parseTags (jsTrim (exRowProp.getD (exCi ETIQUETA_PROP_COL_NAME) ""))) :=
  ⟨by decide, by decide, by decide,
    proposed_tag_overwrites_original_tag exCi exRowProp (by decide) (by decide)
      (by decide)⟩

/-! ## Claims C6–C8 -/

/-- Claim C6: tag parsing splits the final tag string on the separator,
trims and lower-cases each piece and drops empty pieces; a row whose final
tag string parses to zero tags contributes to no bucket. -/
theorem tag_parsing_and_empty_tags_exclusion :
    (∀ (s t : String), t ∈ parseTags s ↔
        (t ≠ "" ∧ ∃ piece ∈ jsSplit s TAG_SEPARATOR, jsToLower (jsTrim piece) = t)) ∧
    (∀ (ci : String → Nat) (hdr row : Row) (pre suf : Table) (name : String),
        name ∈ GROUPING_RULES.map Prod.fst →
        parseTags (finalTagOf ci row) = [] →
        processData (hdr :: (pre ++ row :: suf)) ci name =
          processData (hdr :: (pre ++ suf)) ci name) := by
  constructor
  · intro s t
    simp only [parseTags, List.mem_filter, List.mem_map, decide_eq_true_eq]
    tauto
  · intro ci hdr row pre suf name hname hz
    exact processData_skip ci hdr row pre suf name hname
      (classifyRow_eq_none_of_no_tags ci row hz)

def exRowEmptyTags : Row := ["SI", "resp", "", " ; ; ", ""]

/-- Witness for C6: a row whose final tag string is `" ; ; "` parses to zero
tags and is dropped without changing the Ingresantes bucket. -/
theorem tag_parsing_and_empty_tags_exclusion_witness :
    ("FAQ_Ingresantes" ∈ GROUPING_RULES.map Prod.fst) ∧
    parseTags (finalTagOf exCi exRowEmptyTags) = [] ∧
    processData [exHeaders, exRowEmptyTags] exCi "FAQ_Ingresantes" =
      processData [exHeaders] exCi "FAQ_Ingresantes" :=
  ⟨by decide, by decide,
    tag_parsing_and_empty_tags_exclusion.2 exCi exHeaders exRowEmptyTags [] []
      "FAQ_Ingresantes" (by decide) (by decide)⟩

/-- Claim C7: every bucket contains each source row at most once — its
length equals the number of surviving rows that match the rule, even when
several keywords or several tags of one row match. -/
theorem bucket_at_most_once_per_row
    (data : Table) (ci : String → Nat) (name : String) (kws : List String)
    (bucket : List Row)
    (hmem : (name, kws) ∈ GROUPING_RULES)
    (hbucket : processData data ci name = some bucket) :
    bucket.length =
      ((data.drop 1).filter (fun row => (entryFor ci kws row).isSome)).length := by
  rw [processData_bucket data ci name kws hmem] at hbucket
  injection hbucket with hb
  rw [← hb]
  exact length_filterMap_eq_length_filter _ _

def exRowMulti : Row := ["SI", "resp", "", "ingreso;ingresantes", ""]

/-- Witness for C7: a row whose two tags both match keywords of
`FAQ_Ingresantes` still occupies a single bucket slot. -/
theorem bucket_at_most_once_per_row_witness :
    (("FAQ_Ingresantes", kwIngresantes) ∈ GROUPING_RULES) ∧
    (processData [exHeaders, exRowMulti] exCi "FAQ_Ingresantes" = some [exRowMulti]) ∧
    ([exRowMulti] : List Row).length =
      ((([exHeaders, exRowMulti] : Table).drop 1).filter
        (fun row => (entryFor exCi kwIngresantes row).isSome)).length :=
  ⟨by decide, by decide,
    bucket_at_most_once_per_row [exHeaders, exRowMulti] exCi "FAQ_Ingresantes"
      kwIngresantes [exRowMulti] (by decide) (by decide)⟩

/-- Claim C8: within every bucket, the rows appear in the relative order of
the matching source rows: if source row `rowi` precedes source row `rowj`
and both are assigned to the category, the copy of `rowi` sits at a strictly
smaller bucket position than the copy of `rowj`. -/
theorem bucket_preserves_source_order
    (data : Table) (ci : String → Nat) (name : String) (kws : List String)
    (pre mid suf : Table) (rowi rowj a b : Row) (bucket : List Row)
    (hmem : (name, kws) ∈ GROUPING_RULES)
    (hsplit : data.drop 1 = pre ++ rowi :: (mid ++ rowj :: suf))
    (ha : entryFor ci kws rowi = some a)
    (hb : entryFor ci kws rowj = some b)
    (hbucket : processData data ci name = some bucket) :
    ∃ p q : Nat, p < q ∧ bucket[p]? = some a ∧ bucket[q]? = some b := by
  rw [processData_bucket data ci name kws hmem, hsplit] at hbucket
  injection hbucket with hbk
  subst hbk
  rw [List.filterMap_append, List.filterMap_cons, ha, List.filterMap_append,
    List.filterMap_cons, hb]
  refine ⟨(pre.filterMap (entryFor ci kws)).length,
    (pre.filterMap (entryFor ci kws)).length + 1 +
      (mid.filterMap (entryFor ci kws)).length, by omega, ?_, ?_⟩
  · rw [List.getElem?_append_right (Nat.le_refl _), Nat.sub_self]
    simp
  · rw [List.getElem?_append_right
      (by omega : (pre.filterMap (entryFor ci kws)).length ≤
        (pre.filterMap (entryFor ci kws)).length + 1 +
          (mid.filterMap (entryFor ci kws)).length)]
    have h1 : (pre.filterMap (entryFor ci kws)).length + 1 +
        (mid.filterMap (entryFor ci kws)).length -
        (pre.filterMap (entryFor ci kws)).length =
        (mid.filterMap (entryFor ci kws)).length + 1 := by omega
    rw [h1]
    simp only [List.getElem?_cons_succ]
    simp only [List.getElem?_eq_getElem (by simp : (mid.filterMap (entryFor ci kws)).length <
      (mid.filterMap (entryFor ci kws) ++ b :: suf.filterMap (entryFor ci kws)).length)]
    rw [List.getElem_append_right (Nat.le_refl _)]
    simp

def exRowA : Row := ["SI", "r1", "", "Ingreso", ""]

def exRowB : Row := ["SI", "r2", "", "Beca", ""]

/-- Witness for C8: two matching rows keep their source order in the
Ingresantes bucket. -/
theorem bucket_preserves_source_order_witness :
    (("FAQ_Ingresantes", kwIngresantes) ∈ GROUPING_RULES) ∧
    (([exHeaders, exRowA, exRowB] : Table).drop 1 =
      [] ++ exRowA :: ([] ++ exRowB :: [])) ∧
    (entryFor exCi kwIngresantes exRowA = some exRowA) ∧
    (entryFor exCi kwIngresantes exRowB = some exRowB) ∧
    (processData [exHeaders, exRowA, exRowB] exCi "FAQ_Ingresantes" =
      some [exRowA, exRowB]) ∧
    ∃ p q : Nat, p < q ∧ ([exRowA, exRowB] : List Row)[p]? = some exRowA ∧
      ([exRowA, exRowB] : List Row)[q]? = some exRowB :=
  ⟨by decide, by decide, by decide, by decide, by decide,
    bucket_preserves_source_order [exHeaders, exRowA, exRowB] exCi
      "FAQ_Ingresantes" kwIngresantes [] [] [] exRowA exRowB exRowA exRowB
      [exRowA, exRowB] (by decide) (by decide) (by decide) (by decide) (by decide)⟩

/-! ## Claim C9: required-column validation -/

/-- Claim C9: when one of the five required column names is missing from the
header index, the run aborts with an error naming a missing column before
any classification; when all are present, validation passes and the
classifier runs. -/
theorem required_column_validation (data : Table) (hlen : 2 ≤ data.length) :
    ((∃ c ∈ requiredCols, findColumnHeaders (data.headD []) c = none) →
      ∃ c ∈ requiredCols, runCore data = Except.error (RunError.missingColumn c) ∧
        findColumnHeaders (data.headD []) c = none) ∧
    ((∀ c ∈ requiredCols, (findColumnHeaders (data.headD []) c).isSome) →
      runCore data = Except.ok (processData data
        (fun k => (findColumnHeaders (data.headD []) k).getD 0))) := by
  have hnot : ¬ data.length < 2 := by omega
  constructor
  · rintro ⟨c, hc, hnone⟩
    have hsome : (requiredCols.find? (fun colName =>
        (findColumnHeaders (data.headD []) colName).isNone)).isSome := by
      rw [List.find?_isSome]
      exact ⟨c, hc, by simp only [hnone, Option.isNone_none]⟩
    obtain ⟨c', hc'⟩ := Option.isSome_iff_exists.mp hsome
    refine ⟨c', List.mem_of_find?_eq_some hc', ?_, ?_⟩
    · unfold runCore
      rw [if_neg hnot, hc']
    · have h := List.find?_some hc'
      simpa using h
  · intro hall
    have hnone : requiredCols.find? (fun colName =>
        (findColumnHeaders (data.headD []) colName).isNone) = none := by
      rw [List.find?_eq_none]
      intro c hc hn
      have h := hall c hc
      simp only [Option.isNone_iff_eq_none] at hn
      rw [hn] at h
      simp at h
    unfold runCore
    rw [if_neg hnot, hnone]

def exBadHeaders : Row :=
  ["Publicable", "Respuesta", "Etiqueta Original", "Etiqueta Propuesta"]

def exBadData : Table := [exBadHeaders, ["SI", "r", "Ingreso", ""]]

/-- Witness for C9: a header row lacking the updated-answer column makes the
run abort with an error naming a missing column. -/
theorem required_column_validation_witness :
    (2 ≤ exBadData.length) ∧
    (∃ c ∈ requiredCols, findColumnHeaders (exBadData.headD []) c = none) ∧
    (∃ c ∈ requiredCols, runCore exBadData = Except.error (RunError.missingColumn c) ∧
      findColumnHeaders (exBadData.headD []) c = none) :=
  ⟨by decide, by decide,
    (required_column_validation exBadData (by decide)).1 (by decide)⟩

/-! ## Claim C10: duplicate headers in the header index -/

theorem findColumnHeadersFrom_concat (n : Nat) (hs : List String) (h : String)
    (m : String → Option Nat) (k : String) :
    findColumnHeadersFrom n (hs ++ [h]) m k =
      if k = jsTrim h then some (n + hs.length) else findColumnHeadersFrom n hs m k := by
  induction hs generalizing n m with
  | nil => simp [findColumnHeadersFrom]
  | cons h' t ih =>
    simp only [List.cons_append, findColumnHeadersFrom, List.append_eq]
    rw [ih (n + 1)]
    have he : n + 1 + t.length = n + (h' :: t).length := by
      simp only [List.length_cons]
      omega
    rw [he]

theorem findColumnHeaders_concat (hs : List String) (h : String) (k : String) :
    findColumnHeaders (hs ++ [h]) k =
      if k = jsTrim h then some hs.length else findColumnHeaders hs k := by
  simpa using findColumnHeadersFrom_concat 0 hs h (fun _ => none) k

/-- Claim C10: the header index maps a name to the position of the *last*
header cell trimming to it — a later duplicate silently overwrites an
earlier one, and every read through the index uses that last column. -/
theorem header_index_last_duplicate_wins (headers : List String) (k : String) (i : Nat) :
    findColumnHeaders headers k = some i ↔
      (i < headers.length ∧ jsTrim (headers.getD i "") = k ∧
        ∀ j, i < j → j < headers.length → jsTrim (headers.getD j "") ≠ k) := by
  induction headers using List.reverseRecOn with
  | nil => simp [findColumnHeaders, findColumnHeadersFrom]
  | append_singleton hs h ih =>
    rw [findColumnHeaders_concat]
    by_cases hk : k = jsTrim h
    · rw [if_pos hk]
      constructor
      · intro h'
        injection h' with h''
        subst h''
        refine ⟨by simp, ?_, ?_⟩
        · rw [List.getD_eq_getElem?_getD, List.getElem?_append_right (Nat.le_refl _),
            Nat.sub_self]
          simp [hk.symm]
        · intro j hj1 hj2
          simp only [List.length_append, List.length_singleton] at hj2
          omega
      · rintro ⟨hi, hget, hafter⟩
        by_cases hieq : hs.length = i
        · rw [hieq]
        · exfalso
          have hi' : i < hs.length := by
            simp only [List.length_append, List.length_singleton] at hi
            omega
          apply hafter hs.length hi' (by simp)
          rw [List.getD_eq_getElem?_getD, List.getElem?_append_right (Nat.le_refl _),
            Nat.sub_self]
          simpa using hk.symm
    · rw [if_neg hk, ih]
      constructor
      · rintro ⟨hi, hget, hafter⟩
        refine ⟨by simp only [List.length_append, List.length_singleton]; omega, ?_, ?_⟩
        · rw [List.getD_eq_getElem?_getD, List.getElem?_append_left hi,
            ← List.getD_eq_getElem?_getD]
          exact hget
        · intro j hj1 hj2
          by_cases hjlen : j < hs.length
          · have hj := hafter j hj1 hjlen
            rw [List.getD_eq_getElem?_getD, List.getElem?_append_left hjlen,
              ← List.getD_eq_getElem?_getD]
            exact hj
          · have hj : j = hs.length := by
              simp only [List.length_append, List.length_singleton] at hj2
              omega
            subst hj
            rw [List.getD_eq_getElem?_getD, List.getElem?_append_right (Nat.le_refl _),
              Nat.sub_self]
            simpa using fun e => hk e.symm
      · rintro ⟨hi, hget, hafter⟩
        have hilen : i < hs.length ∨ i = hs.length := by
          simp only [List.length_append, List.length_singleton] at hi
          omega
        rcases hilen with hilt | hieq
        · refine ⟨hilt, ?_, ?_⟩
          · rw [List.getD_eq_getElem?_getD, List.getElem?_append_left hilt,
              ← List.getD_eq_getElem?_getD] at hget
            exact hget
          · intro j hj1 hj2
            have hj := hafter j hj1
              (by simp only [List.length_append, List.length_singleton]; omega)
            rw [List.getD_eq_getElem?_getD, List.getElem?_append_left hj2,
              ← List.getD_eq_getElem?_getD] at hj
            exact hj
        · exfalso
          subst hieq
          rw [List.getD_eq_getElem?_getD, List.getElem?_append_right (Nat.le_refl _),
            Nat.sub_self] at hget
          simp only [List.getElem?_cons_zero, Option.getD_some] at hget
          exact hk hget.symm

/-- Witness for C10: in headers `["Dup", "X", " Dup "]` the name `"Dup"`
resolves to the last matching column, index 2. -/
theorem header_index_last_duplicate_wins_witness :
    findColumnHeaders ["Dup", "X", " Dup "] "Dup" = some 2 ↔
      (2 < (["Dup", "X", " Dup "] : List String).length ∧
        jsTrim ((["Dup", "X", " Dup "] : List String).getD 2 "") = "Dup" ∧
        ∀ j, 2 < j → j < (["Dup", "X", " Dup "] : List String).length →
          jsTrim ((["Dup", "X", " Dup "] : List String).getD j "") ≠ "Dup") :=
  header_index_last_duplicate_wins ["Dup", "X", " Dup "] "Dup" 2
